import Mathlib

/-!
Verification of the FEM_WASM_THREEJS mesh loader core (`src/ts/loader.ts`).

The development shallowly embeds the two components the claims are about:

* the text-format parser `Loader.parseTetFile` (lines 269-312), modelled
  over `List Char` with JS `NaN` results represented as `Option.none` and
  a thrown exception represented by an `Option.none` result of the whole
  parse;
* the mesh build `Loader.loadTet` (lines 187-250) together with
  `TetFile.recalcNormals` and `TetFile.copyDataToBuffer`, modelled over
  real-valued buffers (`List ℝ` standing for the `Float32Array`s), with
  each write loop rendered as a list of `(slot, value)` writes applied
  in program order by `applyWrites`.
-/

namespace TetLoader

/-! ## Parser model (`Loader.parseTetFile`) -/

/-- JS whitespace characters relevant to `String.prototype.trim` on the
inputs at hand: blank, tab, carriage return, newline. -/
def isJsWS (c : Char) : Bool :=
  c = ' ' || c = '\t' || c = '\r' || c = '\n'

/-- Model of `line.trim()`: drop whitespace from both ends. -/
def jsTrim (l : List Char) : List Char :=
  ((l.dropWhile isJsWS).reverse.dropWhile isJsWS).reverse

/-- Model of `text.split(sep)` for a single-character separator: JS split,
which keeps empty fields and yields `[""]` on the empty string. -/
def splitOnChar (c : Char) : List Char → List (List Char)
  | [] => [[]]
  | x :: xs =>
    if x = c then [] :: splitOnChar c xs
    else
      match splitOnChar c xs with
      | [] => [[x]]
      | t :: ts => (x :: t) :: ts

/-- Model of the line splitting `text.split(/\r?\n/)`: separators are a newline optionally preceded by
a carriage return; a lone carriage return is not a separator. -/
def splitLines : List Char → List (List Char)
  | [] => [[]]
  | '\r' :: '\n' :: xs => [] :: splitLines xs
  | '\n' :: xs => [] :: splitLines xs
  | x :: xs =>
    match splitLines xs with
    | [] => [[x]]
    | t :: ts => (x :: t) :: ts

/-- Numeric value of a digit string (most significant first). -/
def digitsToNat (l : List Char) : ℕ :=
  l.foldl (fun a c => 10 * a + (c.toNat - Char.toNat '0')) 0

/-- The maximal leading run of decimal digits, `none` when there is none. -/
def leadDigits (l : List Char) : Option (List Char) :=
  let d := l.takeWhile Char.isDigit
  if d = [] then none else some d

/-- Modelled from the JS builtin `parseInt(s)` (radix 10) on the token
shapes this format produces: skip leading whitespace, an optional sign,
then the value of the maximal leading digit run; `none` models `NaN`. -/
def jsParseInt (s : List Char) : Option ℤ :=
  match s.dropWhile isJsWS with
  | '-' :: r => (leadDigits r).map (fun l => -(digitsToNat l : ℤ))
  | '+' :: r => (leadDigits r).map (fun l => (digitsToNat l : ℤ))
  | r => (leadDigits r).map (fun l => (digitsToNat l : ℤ))

/-- Modelled from the JS builtin `parseFloat(s)` on plain decimal
numerals (optional sign, integer digits, optional fraction digits; the
scientific-notation forms never appear in this format): `none` models
`NaN`. -/
def jsParseFloat (s : List Char) : Option ℚ :=
  let t := s.dropWhile isJsWS
  let core : List Char → Option ℚ := fun u =>
    let intD := u.takeWhile Char.isDigit
    let rest := u.dropWhile Char.isDigit
    let fracD := match rest with
      | '.' :: r2 => r2.takeWhile Char.isDigit
      | _ => []
    if intD = [] ∧ fracD = [] then none
    else some ((digitsToNat intD : ℚ) + (digitsToNat fracD : ℚ) / 10 ^ fracD.length)
  match t with
  | '-' :: r => (core r).map (fun q => -q)
  | '+' :: r => core r
  | r => core r

/-- The parsed arrays (`class ParsedTetFile`, loader.ts lines 3-13).
Every number is a JS number produced by `parseFloat`/`parseInt`, so each
entry is an `Option` with `none` standing for `NaN`. -/
structure ParsedTetFile where
  vertices : List (Option ℚ) := []
  texCoords : List (Option ℚ) := []
  faces : List (List (List (Option ℤ))) := []
  tetsIndices : List (Option ℤ) := []
  deriving DecidableEq, Repr

/-- Model of `parseFloat(values[k])`: an absent token (`undefined`) also parses to
`NaN`. -/
def floatAt (values : List (List Char)) (k : ℕ) : Option ℚ :=
  (values.get? k).bind jsParseFloat

/-- Model of `parseInt(values[k]) - 1` of the `t` directive, with `NaN - 1 = NaN`. -/
def intAt (values : List (List Char)) (k : ℕ) : Option ℤ :=
  ((values.get? k).bind jsParseInt).map (fun z => z - 1)

/-- The inner loop of the `f` directive (loader.ts lines 292-297): split
the corner token on `/` and decrement every part, with `NaN - 1 = NaN`. -/
def parseCorner (tok : List Char) : List (Option ℤ) :=
  (splitOnChar '/' tok).map (fun s => (jsParseInt s).map (fun z => z - 1))

/-- One iteration of the `lines.forEach` body (loader.ts lines 272-310).
`none` models the `TypeError` thrown in the `f` branch when a corner
token is absent (`undefined.split`); every other branch is total. -/
def parseLine (acc : ParsedTetFile) (rawLine : List Char) : Option ParsedTetFile :=
  let line := jsTrim rawLine
  if line.head? = some '#' then some acc
  else
    let values := splitOnChar ' ' line
    if values.length < 1 then some acc
    else
      let v0 := values.headD []
      if v0 = ['v'] then
        some { acc with vertices :=
          acc.vertices ++ [floatAt values 1, floatAt values 2, floatAt values 3] }
      else if v0 = ['v', 't'] then
        some { acc with texCoords :=
          acc.texCoords ++ [floatAt values 1, floatAt values 2] }
      else if v0 = ['f'] then
        match values.get? 1, values.get? 2, values.get? 3 with
        | some t1, some t2, some t3 =>
          some { acc with faces :=
            acc.faces ++ [[parseCorner t1, parseCorner t2, parseCorner t3]] }
        | _, _, _ => none
      else if v0 = ['t'] then
        some { acc with tetsIndices :=
          acc.tetsIndices ++ [intAt values 1, intAt values 2, intAt values 3, intAt values 4] }
      else some acc

/-- The forEach fold over the lines; a thrown exception (`none`) aborts the rest. -/
def parseLines (acc : ParsedTetFile) : List (List Char) → Option ParsedTetFile
  | [] => some acc
  | l :: ls => (parseLine acc l).bind (fun acc2 => parseLines acc2 ls)

/-- Model of `Loader.parseTetFile` (loader.ts lines 269-312). -/
def parseTetFile (text : List Char) : Option ParsedTetFile :=
  parseLines {} (splitLines text)

/-! ## Mesh model (`TetFile`, `Loader.loadTet`)

`Float32Array` buffers are modelled as `List ℝ`; a store
`buf[i] = v` is `List.set` (like a typed-array store, a write at an
out-of-range index changes nothing and never resizes). Each write loop
of the source reads only arrays it does not itself write, so a loop is
rendered as the list of `(slot, value)` stores it performs, applied in
program order by `applyWrites`. -/

/-- Apply a list of `(slot, value)` stores in order. -/
def applyWrites (ws : List (ℕ × ℝ)) (b : List ℝ) : List ℝ :=
  ws.foldl (fun acc iv => acc.set iv.1 iv.2) b

/-- The value of the last store to slot `m`, if any. -/
def lastW : List (ℕ × ℝ) → ℕ → Option ℝ
  | [], _ => none
  | iv :: rest, m =>
    match lastW rest m with
    | some v => some v
    | none => if iv.1 = m then some iv.2 else none

/-- A face: three corners, each a `[vertexIndex, texCoordIndex]` list. -/
abbrev Face := List (List ℕ)

/-- Model of `Math.hypot(x, y, z)`. -/
noncomputable def hypot3 (x y z : ℝ) : ℝ :=
  Real.sqrt (x * x + y * y + z * z)

/-- Per-face data computed by the first loop of `recalcNormals`
(loader.ts lines 43-88): the three unit-normal components and the
Heron-formula area. -/
structure FaceData where
  nx : ℝ
  ny : ℝ
  nz : ℝ
  area : ℝ

/-- The body of the first `recalcNormals` loop for one `face`, reading
the flat `vertices` buffer (loader.ts lines 44-87). -/
noncomputable def faceCalc (vs : List ℝ) (face : Face) : FaceData :=
  let i0 := (face.getD 0 []).headD 0
  let i1 := (face.getD 1 []).headD 0
  let i2 := (face.getD 2 []).headD 0
  let x0 := vs.getD (i0 * 3 + 0) 0
  let y0 := vs.getD (i0 * 3 + 1) 0
  let z0 := vs.getD (i0 * 3 + 2) 0
  let x1 := vs.getD (i1 * 3 + 0) 0
  let y1 := vs.getD (i1 * 3 + 1) 0
  let z1 := vs.getD (i1 * 3 + 2) 0
  let x2 := vs.getD (i2 * 3 + 0) 0
  let y2 := vs.getD (i2 * 3 + 1) 0
  let z2 := vs.getD (i2 * 3 + 2) 0
  let xA := x0 - x1
  let yA := y0 - y1
  let zA := z0 - z1
  let xB := x0 - x2
  let yB := y0 - y2
  let zB := z0 - z2
  let xC := x1 - x2
  let yC := y1 - y2
  let zC := z1 - z2
  let a := hypot3 xA yA zA
  let b := hypot3 xB yB zB
  let c := hypot3 xC yC zC
  let s := (a + b + c) * 0.5
  let area := Real.sqrt (s * (s - a) * (s - b) * (s - c))
  let xN := yA * zB - zA * yB
  let yN := zA * xB - xA * zB
  let zN := xA * yB - yA * xB
  let n := hypot3 xN yN zN
  { nx := xN / n, ny := yN / n, nz := zN / n, area := area }

/-- Stores of the first `recalcNormals` loop into `faceNormals`
(loader.ts lines 83-85), with `k` the running face index. -/
noncomputable def faceNormalWrites (vs : List ℝ) (k : ℕ) : List Face → List (ℕ × ℝ)
  | [] => []
  | f :: fs =>
    let d := faceCalc vs f
    (k * 3 + 0, d.nx) :: (k * 3 + 1, d.ny) :: (k * 3 + 2, d.nz) ::
      faceNormalWrites vs (k + 1) fs

/-- Stores of the first `recalcNormals` loop into `faceAreas`
(loader.ts line 87). -/
noncomputable def faceAreaWrites (vs : List ℝ) (k : ℕ) : List Face → List (ℕ × ℝ)
  | [] => []
  | f :: fs => (k, (faceCalc vs f).area) :: faceAreaWrites vs (k + 1) fs

/-- The accumulation over one adjacency entry's face list (loader.ts
lines 94-110): running sums of the face-normal components and of the
face areas, in list order. -/
noncomputable def connAccum (fN fA : List ℝ) (conns : List ℕ) : ℝ × ℝ × ℝ × ℝ :=
  conns.foldl
    (fun acc fi =>
      (acc.1 + fN.getD (fi * 3 + 0) 0,
       acc.2.1 + fN.getD (fi * 3 + 1) 0,
       acc.2.2.1 + fN.getD (fi * 3 + 2) 0,
       acc.2.2.2 + fA.getD fi 0))
    (0, 0, 0, 0)

/-- The body of the second `recalcNormals` loop for one adjacency
entry (loader.ts lines 94-124): divide the accumulated normal sum by
the accumulated area sum, then renormalize; the result is the stored
`(vnx, vny, vnz)` triple. -/
noncomputable def vnCalc (fN fA : List ℝ) (conns : List ℕ) : ℝ × ℝ × ℝ :=
  let acc := connAccum fN fA conns
  let vnx := acc.1 / acc.2.2.2
  let vny := acc.2.1 / acc.2.2.2
  let vnz := acc.2.2.1 / acc.2.2.2
  let len := hypot3 vnx vny vnz
  (vnx / len, vny / len, vnz / len)

/-- Stores of the second `recalcNormals` loop into `normals`
(loader.ts lines 90-125), iterating the adjacency entries in order. -/
noncomputable def vertexNormalWrites (fN fA : List ℝ) :
    List (ℕ × List ℕ) → List (ℕ × ℝ)
  | [] => []
  | (v, conns) :: rest =>
    (v * 3 + 0, (vnCalc fN fA conns).1) :: (v * 3 + 1, (vnCalc fN fA conns).2.1) ::
      (v * 3 + 2, (vnCalc fN fA conns).2.2) :: vertexNormalWrites fN fA rest

/-- Stores of the third `recalcNormals` loop into `verticesNormals`
(loader.ts lines 127-142), with `k` the running corner counter over the
flattened face/corner order. -/
noncomputable def cornerNormalWrites (nm : List ℝ) (k : ℕ) :
    List (List ℕ) → List (ℕ × ℝ)
  | [] => []
  | c :: cs =>
    let v := c.headD 0
    (k * 3 + 0, nm.getD (v * 3 + 0) 0) :: (k * 3 + 1, nm.getD (v * 3 + 1) 0) ::
      (k * 3 + 2, nm.getD (v * 3 + 2) 0) :: cornerNormalWrites nm (k + 1) cs

/-- Stores of `copyDataToBuffer` into `verticesPositions` (loader.ts
lines 150-162). -/
noncomputable def cornerPositionWrites (vs : List ℝ) (k : ℕ) :
    List (List ℕ) → List (ℕ × ℝ)
  | [] => []
  | c :: cs =>
    let v := c.headD 0
    (k * 3 + 0, vs.getD (v * 3 + 0) 0) :: (k * 3 + 1, vs.getD (v * 3 + 1) 0) ::
      (k * 3 + 2, vs.getD (v * 3 + 2) 0) :: cornerPositionWrites vs (k + 1) cs

/-- Stores of the texture-coordinate expansion in `loadTet` (loader.ts
lines 225-237) into `verticesTexCoords`. -/
noncomputable def cornerTexWrites (tcs : List ℝ) (k : ℕ) :
    List (List ℕ) → List (ℕ × ℝ)
  | [] => []
  | c :: cs =>
    let t := c.getD 1 0
    (k * 2 + 0, tcs.getD (t * 2 + 0) 0) :: (k * 2 + 1, tcs.getD (t * 2 + 1) 0) ::
      cornerTexWrites tcs (k + 1) cs

/-- The external `THREE.BufferGeometry` sink, modelled by its two
per-attribute `needsUpdate` flags the core touches. -/
structure Geometry where
  normalNeedsUpdate : Bool
  positionNeedsUpdate : Bool
  deriving DecidableEq, Repr

/-- Model of `class TetFile` (loader.ts lines 15-167): the mesh state. The
`geometry` field is `none` before the render geometry is attached. -/
structure TetFile where
  vertices : List ℝ
  tetsIndices : List ℤ
  normals : List ℝ
  texCoords : List ℝ
  faceNormals : List ℝ
  faceAreas : List ℝ
  faces : List Face
  connectedFaces : List (ℕ × List ℕ)
  verticesPositions : List ℝ
  verticesTexCoords : List ℝ
  verticesNormals : List ℝ
  geometry : Option Geometry
  triangleCount : ℕ

/-- Model of `TetFile.recalcNormals` (loader.ts lines 42-147): the three write
loops in program order, then the `needsUpdate` signal when the geometry
sink is present. -/
noncomputable def TetFile.recalcNormals (t : TetFile) : TetFile :=
  let fN := applyWrites (faceNormalWrites t.vertices 0 t.faces) t.faceNormals
  let fA := applyWrites (faceAreaWrites t.vertices 0 t.faces) t.faceAreas
  let nm := applyWrites (vertexNormalWrites fN fA t.connectedFaces) t.normals
  let vN := applyWrites (cornerNormalWrites nm 0 t.faces.flatten) t.verticesNormals
  { t with
    faceNormals := fN
    faceAreas := fA
    normals := nm
    verticesNormals := vN
    geometry := t.geometry.map (fun g => { g with normalNeedsUpdate := true }) }

/-- Model of `TetFile.copyDataToBuffer` (loader.ts lines 149-166). -/
noncomputable def TetFile.copyDataToBuffer (t : TetFile) : TetFile :=
  { t with
    verticesPositions :=
      applyWrites (cornerPositionWrites t.vertices 0 t.faces.flatten) t.verticesPositions
    geometry := t.geometry.map (fun g => { g with positionNeedsUpdate := true }) }

/-- Model of `connectedFaces.get(v)` on the insertion-ordered map. -/
def mapGet : List (ℕ × List ℕ) → ℕ → Option (List ℕ)
  | [], _ => none
  | e :: rest, v => if e.1 = v then some e.2 else mapGet rest v

/-- Model of `connectedFaces.set(v, l)`: replace in place when the key exists,
append otherwise (JS `Map` insertion-order semantics). -/
def mapSet (cf : List (ℕ × List ℕ)) (v : ℕ) (l : List ℕ) : List (ℕ × List ℕ) :=
  match cf with
  | [] => [(v, l)]
  | e :: rest => if e.1 = v then (v, l) :: rest else e :: mapSet rest v l

/-- The inner adjacency step (loader.ts lines 210-215): read the
vertex's list (or `[]`), append the face index if absent, store back. -/
def addFaceCorner (cf : List (ℕ × List ℕ)) (faceIndex v : ℕ) : List (ℕ × List ℕ) :=
  let conns := (mapGet cf v).getD []
  let conns := if faceIndex ∈ conns then conns else conns ++ [faceIndex]
  mapSet cf v conns

/-- The adjacency-construction loop nest (loader.ts lines 207-217), with
`k` the running face index; each face contributes its three corners'
vertex indices in order. -/
def buildCF (k : ℕ) : List Face → List (ℕ × List ℕ) → List (ℕ × List ℕ)
  | [], cf => cf
  | f :: fs, cf =>
    let v0 := (f.getD 0 []).headD 0
    let v1 := (f.getD 1 []).headD 0
    let v2 := (f.getD 2 []).headD 0
    buildCF (k + 1) fs (addFaceCorner (addFaceCorner (addFaceCorner cf k v0) k v1) k v2)

/-- The parsed arrays as handed to the mesh build, in the well-formed
case the claims quantify over: every parsed number is an actual number
(no `NaN`), positions and texture coordinates are reals and indices are
naturals. -/
structure ParsedData where
  vertices : List ℝ
  texCoords : List ℝ
  faces : List Face
  tetsIndices : List ℤ

/-- The mesh build of `Loader.loadTet` (loader.ts lines 191-247): copy
the parsed arrays, allocate the zero-filled derived buffers, build the
adjacency map, fill the per-corner texture coordinates, run
`recalcNormals` and `copyDataToBuffer`, then attach the fresh render
geometry (the fetch and promise wrapper around this build are not
modelled). -/
noncomputable def loadTet (p : ParsedData) : TetFile :=
  let triangleCount := p.faces.length
  let t0 : TetFile :=
    { vertices := p.vertices
      tetsIndices := p.tetsIndices
      normals := List.replicate (p.vertices.length * 3) 0
      texCoords := p.texCoords
      faceNormals := List.replicate (triangleCount * 3) 0
      faceAreas := List.replicate triangleCount 0
      faces := p.faces
      connectedFaces := buildCF 0 p.faces []
      verticesPositions := List.replicate (triangleCount * 3 * 3) 0
      verticesTexCoords := List.replicate (triangleCount * 3 * 2) 0
      verticesNormals := List.replicate (triangleCount * 3 * 3) 0
      geometry := none
      triangleCount := triangleCount }
  let t1 := { t0 with verticesTexCoords :=
    (applyWrites (cornerTexWrites t0.texCoords 0 t0.faces.flatten) t0.verticesTexCoords) }
  let t2 := t1.recalcNormals
  let t3 := t2.copyDataToBuffer
  { t3 with geometry := some { normalNeedsUpdate := false, positionNeedsUpdate := false } }

/-! ## Specification-side definitions

These follow the spec's wording and are compared with the embedded
code. -/

/-- A 3-vector, for the spec-side formulas. -/
structure Vec3 where
  x : ℝ
  y : ℝ
  z : ℝ

/-- Componentwise difference. -/
def Vec3.sub (u v : Vec3) : Vec3 :=
  ⟨u.x - v.x, u.y - v.y, u.z - v.z⟩

/-- Scalar multiple. -/
def Vec3.smul (r : ℝ) (v : Vec3) : Vec3 :=
  ⟨r * v.x, r * v.y, r * v.z⟩

/-- Componentwise sum. -/
def Vec3.add (u v : Vec3) : Vec3 :=
  ⟨u.x + v.x, u.y + v.y, u.z + v.z⟩

/-- The cross product. -/
def Vec3.cross (u v : Vec3) : Vec3 :=
  ⟨u.y * v.z - u.z * v.y, u.z * v.x - u.x * v.z, u.x * v.y - u.y * v.x⟩

/-- Euclidean norm. -/
noncomputable def Vec3.norm (v : Vec3) : ℝ :=
  Real.sqrt (v.x ^ 2 + v.y ^ 2 + v.z ^ 2)

/-- Division by the own norm, per the spec's "normalize by dividing by
the norm". -/
noncomputable def Vec3.normalize (v : Vec3) : Vec3 :=
  ⟨v.x / v.norm, v.y / v.norm, v.z / v.norm⟩

/-- Spec: triangle area via Heron's formula, `s = (a+b+c)/2`,
`area = √(s(s−a)(s−b)(s−c))`. -/
noncomputable def specHeronArea (a b c : ℝ) : ℝ :=
  Real.sqrt ((a + b + c) / 2 * ((a + b + c) / 2 - a) *
    ((a + b + c) / 2 - b) * ((a + b + c) / 2 - c))

/-- Spec: the face normal `N = (P0−P1)×(P0−P2)`, normalized by dividing
by `|N|`. -/
noncomputable def specFaceNormal (P0 P1 P2 : Vec3) : Vec3 :=
  Vec3.normalize (Vec3.cross (Vec3.sub P0 P1) (Vec3.sub P0 P2))

/-- Spec: Euclidean distance of two points. -/
noncomputable def specDist (p q : Vec3) : ℝ :=
  Vec3.norm (Vec3.sub p q)

/-- Spec (scenario, shared vertex): the area-weighted vertex normal
`normalize(A1·N1 + A2·N2 + …)` over the adjacent faces' areas and unit
normals. -/
noncomputable def specWeightedVertexNormal (adj : List (ℝ × Vec3)) : Vec3 :=
  Vec3.normalize (adj.foldl (fun acc an => Vec3.add acc (Vec3.smul an.1 an.2)) ⟨0, 0, 0⟩)

/-- The point of vertex `v` as stored in the flat position buffer. -/
def meshPoint (vs : List ℝ) (v : ℕ) : Vec3 :=
  ⟨vs.getD (v * 3 + 0) 0, vs.getD (v * 3 + 1) 0, vs.getD (v * 3 + 2) 0⟩

/-- The unit normal of face `fi` as stored in a flat face-normal buffer. -/
def storedFaceNormal (fN : List ℝ) (fi : ℕ) : Vec3 :=
  ⟨fN.getD (fi * 3 + 0) 0, fN.getD (fi * 3 + 1) 0, fN.getD (fi * 3 + 2) 0⟩

/-! ## Write-list lemmas -/

theorem applyWrites_nil (b : List ℝ) : applyWrites [] b = b := rfl

theorem applyWrites_cons (iv : ℕ × ℝ) (ws : List (ℕ × ℝ)) (b : List ℝ) :
    applyWrites (iv :: ws) b = applyWrites ws (b.set iv.1 iv.2) := rfl

theorem applyWrites_length (ws : List (ℕ × ℝ)) (b : List ℝ) :
    (applyWrites ws b).length = b.length := by
  induction ws generalizing b with
  | nil => rfl
  | cons iv ws ih => rw [applyWrites_cons, ih, List.length_set]

theorem lastW_cons (iv : ℕ × ℝ) (ws : List (ℕ × ℝ)) (m : ℕ) :
    lastW (iv :: ws) m =
      match lastW ws m with
      | some v => some v
      | none => if iv.1 = m then some iv.2 else none := rfl

theorem applyWrites_get?_of_lastW_none (ws : List (ℕ × ℝ)) (b : List ℝ) (m : ℕ)
    (h : lastW ws m = none) : (applyWrites ws b).get? m = b.get? m := by
  induction ws generalizing b with
  | nil => rfl
  | cons iv ws ih =>
    rw [lastW_cons] at h
    rcases hw : lastW ws m with _ | v
    · rw [hw] at h
      simp only at h
      have hne : iv.1 ≠ m := by
        intro he
        rw [if_pos he] at h
        exact Option.noConfusion h
      rw [applyWrites_cons, ih _ hw, List.get?_set_ne _ _ hne]
    · rw [hw] at h
      exact Option.noConfusion h

theorem applyWrites_congr (ws : List (ℕ × ℝ)) (b c : List ℝ)
    (hlen : c.length = b.length)
    (h : ∀ m, lastW ws m = none → c.get? m = b.get? m) :
    applyWrites ws c = applyWrites ws b := by
  induction ws generalizing b c with
  | nil =>
    exact List.ext_get? (fun m => h m rfl)
  | cons iv ws ih =>
    rw [applyWrites_cons, applyWrites_cons]
    refine ih (b.set iv.1 iv.2) (c.set iv.1 iv.2) (by rw [List.length_set, List.length_set, hlen]) ?_
    intro m hm
    by_cases he : iv.1 = m
    · subst he
      rcases Nat.lt_or_ge iv.1 b.length with hlt | hge
      · rw [List.get?_set_eq_of_lt _ (hlen ▸ hlt), List.get?_set_eq_of_lt _ hlt]
      · rw [List.get?_eq_none.2 (by rw [List.length_set, hlen]; exact hge),
          List.get?_eq_none.2 (by rw [List.length_set]; exact hge)]
    · rw [List.get?_set_ne _ _ he, List.get?_set_ne _ _ he]
      refine h m ?_
      rw [lastW_cons, hm]
      simp only [if_neg he]

/-- Replaying the same stores a second time changes nothing. -/
theorem applyWrites_applyWrites (ws : List (ℕ × ℝ)) (b : List ℝ) :
    applyWrites ws (applyWrites ws b) = applyWrites ws b := by
  refine applyWrites_congr ws b (applyWrites ws b) (applyWrites_length ws b) ?_
  exact fun m hm => applyWrites_get?_of_lastW_none ws b m hm

theorem applyWrites_get?_of_lastW_some (ws : List (ℕ × ℝ)) (b : List ℝ) (m : ℕ) (v : ℝ)
    (h : lastW ws m = some v) (hm : m < b.length) :
    (applyWrites ws b).get? m = some v := by
  induction ws generalizing b with
  | nil => exact Option.noConfusion h
  | cons iv ws ih =>
    rw [lastW_cons] at h
    rcases hw : lastW ws m with _ | v'
    · rw [hw] at h
      simp only at h
      have he : iv.1 = m := by
        by_contra hne
        rw [if_neg hne] at h
        exact Option.noConfusion h
      rw [if_pos he] at h
      rw [applyWrites_cons,
        applyWrites_get?_of_lastW_none ws _ m hw, he,
        List.get?_set_eq_of_lt _ hm]
      exact congrArg some (Option.some.inj h)
    · rw [hw] at h
      rw [applyWrites_cons]
      exact ih _ (h ▸ hw) (by rw [List.length_set]; exact hm)

theorem lastW_append (xs ys : List (ℕ × ℝ)) (m : ℕ) :
    lastW (xs ++ ys) m =
      match lastW ys m with
      | some v => some v
      | none => lastW xs m := by
  induction xs with
  | nil =>
    rw [List.nil_append]
    rcases h : lastW ys m with _ | v <;> rfl
  | cons iv xs ih =>
    rw [List.cons_append, lastW_cons, ih, lastW_cons]
    rcases lastW ys m with _ | v
    · rfl
    · rfl

theorem lastW_eq_none_of_slots (ws : List (ℕ × ℝ)) (m : ℕ)
    (h : ∀ iv ∈ ws, iv.1 ≠ m) : lastW ws m = none := by
  induction ws with
  | nil => rfl
  | cons iv ws ih =>
    rw [lastW_cons, ih (fun jv hj => h jv (List.mem_cons_of_mem _ hj)),
      if_neg (h iv (List.mem_cons_self _ _))]

/-! ## Characterizing the face loop -/

/-- Component selector for `FaceData` normals. -/
def compN : ℕ → FaceData → ℝ
  | 0, d => d.nx
  | 1, d => d.ny
  | _, d => d.nz

theorem faceNormalWrites_slots (vs : List ℝ) (fs : List Face) (k : ℕ) :
    ∀ iv ∈ faceNormalWrites vs k fs, k * 3 ≤ iv.1 := by
  induction fs generalizing k with
  | nil => intro iv h; exact absurd h (List.not_mem_nil iv)
  | cons f fs ih =>
    intro iv h
    simp only [faceNormalWrites, List.mem_cons] at h
    rcases h with h | h | h | h
    · subst h; exact Nat.le_add_right _ _
    · subst h; exact Nat.le_add_right _ _
    · subst h; exact Nat.le_add_right _ _
    · exact le_trans (by omega) (ih (k + 1) iv h)

theorem faceAreaWrites_slots (vs : List ℝ) (fs : List Face) (k : ℕ) :
    ∀ iv ∈ faceAreaWrites vs k fs, k ≤ iv.1 := by
  induction fs generalizing k with
  | nil => intro iv h; exact absurd h (List.not_mem_nil iv)
  | cons f fs ih =>
    intro iv h
    simp only [faceAreaWrites, List.mem_cons] at h
    rcases h with h | h
    · subst h; exact Nat.le_refl _
    · exact le_trans (Nat.le_succ k) (ih (k + 1) iv h)

theorem lastW_triple (a b c : ℕ × ℝ) (tail : List (ℕ × ℝ)) (m : ℕ)
    (htail : lastW tail m = none) :
    lastW (a :: b :: c :: tail) m =
      if c.1 = m then some c.2
      else if b.1 = m then some b.2
      else if a.1 = m then some a.2
      else none := by
  rw [lastW_cons, lastW_cons, lastW_cons, htail]
  by_cases hc : c.1 = m
  · simp [hc]
  · by_cases hb : b.1 = m
    · simp [hc, hb]
    · by_cases ha : a.1 = m
      · simp [hc, hb, ha]
      · simp [hc, hb, ha]

theorem lastW_cons_of_some (iv : ℕ × ℝ) (rest : List (ℕ × ℝ)) (m : ℕ) (v : ℝ)
    (h : lastW rest m = some v) : lastW (iv :: rest) m = some v := by
  rw [lastW_cons, h]

theorem lastW_faceNormalWrites (vs : List ℝ) (fs : List Face) (k i j : ℕ)
    (hi : i < fs.length) (hj : j < 3) :
    lastW (faceNormalWrites vs k fs) ((k + i) * 3 + j) =
      some (compN j (faceCalc vs (fs.getD i []))) := by
  induction fs generalizing k i with
  | nil => exact absurd hi (Nat.not_lt_zero i)
  | cons f fs ih =>
    rcases i with _ | i
    · have htail : lastW (faceNormalWrites vs (k + 1) fs) ((k + 0) * 3 + j) = none := by
        refine lastW_eq_none_of_slots _ _ (fun iv hm => ?_)
        have := faceNormalWrites_slots vs fs (k + 1) iv hm
        omega
      simp only [faceNormalWrites]
      rw [lastW_triple _ _ _ _ _ htail]
      simp only [List.getD_cons_zero]
      interval_cases j
      · rw [if_neg (by omega), if_neg (by omega), if_pos (by omega)]; rfl
      · rw [if_neg (by omega), if_pos (by omega)]; rfl
      · rw [if_pos (by omega)]; rfl
    · have hi2 : i < fs.length := by
        simp only [List.length_cons] at hi; omega
      have htail := ih (k + 1) i hi2
      have harith : (k + (i + 1)) * 3 + j = (k + 1 + i) * 3 + j := by ring
      rw [harith, List.getD_cons_succ]
      simp only [faceNormalWrites]
      exact lastW_cons_of_some _ _ _ _
        (lastW_cons_of_some _ _ _ _ (lastW_cons_of_some _ _ _ _ htail))

theorem lastW_faceAreaWrites (vs : List ℝ) (fs : List Face) (k i : ℕ)
    (hi : i < fs.length) :
    lastW (faceAreaWrites vs k fs) (k + i) =
      some (faceCalc vs (fs.getD i [])).area := by
  induction fs generalizing k i with
  | nil => exact absurd hi (Nat.not_lt_zero i)
  | cons f fs ih =>
    rcases i with _ | i
    · have htail : lastW (faceAreaWrites vs (k + 1) fs) (k + 0) = none := by
        refine lastW_eq_none_of_slots _ _ (fun iv hm => ?_)
        have := faceAreaWrites_slots vs fs (k + 1) iv hm
        omega
      simp only [faceAreaWrites]
      rw [lastW_cons, htail]
      simp only [List.getD_cons_zero]
      rw [if_pos (by omega)]
    · have hi2 : i < fs.length := by
        simp only [List.length_cons] at hi; omega
      have htail := ih (k + 1) i hi2
      have harith : k + (i + 1) = k + 1 + i := by ring
      rw [harith, List.getD_cons_succ]
      simp only [faceAreaWrites]
      exact lastW_cons_of_some _ _ _ _ htail

/-- The vertex index of corner `kc` of face `i` of the mesh. -/
def cornerVertex (t : TetFile) (i kc : ℕ) : ℕ :=
  ((t.faces.getD i []).getD kc []).headD 0

/-- Bridge between the embedded loop body and the spec formulas: the
normal components computed by `faceCalc` are those of `specFaceNormal`,
and the area is Heron's formula over the three Euclidean edge
lengths. -/
theorem faceCalc_eq_spec (vs : List ℝ) (face : Face) :
    faceCalc vs face =
      { nx := (specFaceNormal (meshPoint vs ((face.getD 0 []).headD 0))
            (meshPoint vs ((face.getD 1 []).headD 0))
            (meshPoint vs ((face.getD 2 []).headD 0))).x
        ny := (specFaceNormal (meshPoint vs ((face.getD 0 []).headD 0))
            (meshPoint vs ((face.getD 1 []).headD 0))
            (meshPoint vs ((face.getD 2 []).headD 0))).y
        nz := (specFaceNormal (meshPoint vs ((face.getD 0 []).headD 0))
            (meshPoint vs ((face.getD 1 []).headD 0))
            (meshPoint vs ((face.getD 2 []).headD 0))).z
        area := specHeronArea
            (specDist (meshPoint vs ((face.getD 0 []).headD 0))
              (meshPoint vs ((face.getD 1 []).headD 0)))
            (specDist (meshPoint vs ((face.getD 0 []).headD 0))
              (meshPoint vs ((face.getD 2 []).headD 0)))
            (specDist (meshPoint vs ((face.getD 1 []).headD 0))
              (meshPoint vs ((face.getD 2 []).headD 0))) } := by
  simp only [faceCalc, specFaceNormal, specHeronArea, specDist, Vec3.normalize,
    Vec3.cross, Vec3.sub, Vec3.norm, meshPoint, hypot3, pow_two]
  congr 1
  congr 1
  ring

/-! ## Claim theorems: face quantities, sizes, idempotence, geometry -/

/-- C2: for every face, `recalcNormals` stores as face normal the
cross product `(P0−P1)×(P0−P2)` of the two edge vectors from the first
corner divided by its norm, and as face area Heron's formula
`√(s(s−a)(s−b)(s−c))`, `s = (a+b+c)/2`, over the three Euclidean edge
lengths. -/
theorem claim2_face_normal_heron (t : TetFile) (i : ℕ)
    (hi : i < t.faces.length)
    (hN : t.faceNormals.length = t.faces.length * 3)
    (hA : t.faceAreas.length = t.faces.length) :
    t.recalcNormals.faceNormals.get? (i * 3 + 0) =
      some (specFaceNormal (meshPoint t.vertices (cornerVertex t i 0))
        (meshPoint t.vertices (cornerVertex t i 1))
        (meshPoint t.vertices (cornerVertex t i 2))).x ∧
    t.recalcNormals.faceNormals.get? (i * 3 + 1) =
      some (specFaceNormal (meshPoint t.vertices (cornerVertex t i 0))
        (meshPoint t.vertices (cornerVertex t i 1))
        (meshPoint t.vertices (cornerVertex t i 2))).y ∧
    t.recalcNormals.faceNormals.get? (i * 3 + 2) =
      some (specFaceNormal (meshPoint t.vertices (cornerVertex t i 0))
        (meshPoint t.vertices (cornerVertex t i 1))
        (meshPoint t.vertices (cornerVertex t i 2))).z ∧
    t.recalcNormals.faceAreas.get? i =
      some (specHeronArea
        (specDist (meshPoint t.vertices (cornerVertex t i 0))
          (meshPoint t.vertices (cornerVertex t i 1)))
        (specDist (meshPoint t.vertices (cornerVertex t i 0))
          (meshPoint t.vertices (cornerVertex t i 2)))
        (specDist (meshPoint t.vertices (cornerVertex t i 1))
          (meshPoint t.vertices (cornerVertex t i 2)))) := by
  have hfn : t.recalcNormals.faceNormals =
      applyWrites (faceNormalWrites t.vertices 0 t.faces) t.faceNormals := rfl
  have hfa : t.recalcNormals.faceAreas =
      applyWrites (faceAreaWrites t.vertices 0 t.faces) t.faceAreas := rfl
  have key : ∀ j, j < 3 → t.recalcNormals.faceNormals.get? (i * 3 + j) =
      some (compN j (faceCalc t.vertices (t.faces.getD i []))) := by
    intro j hj
    rw [hfn]
    refine applyWrites_get?_of_lastW_some _ _ _ _ ?_ (by omega)
    have := lastW_faceNormalWrites t.vertices t.faces 0 i j hi hj
    rw [Nat.zero_add] at this
    exact this
  have keyA : t.recalcNormals.faceAreas.get? i =
      some (faceCalc t.vertices (t.faces.getD i [])).area := by
    rw [hfa]
    refine applyWrites_get?_of_lastW_some _ _ _ _ ?_ (by omega)
    have := lastW_faceAreaWrites t.vertices t.faces 0 i hi
    rw [Nat.zero_add] at this
    exact this
  rw [faceCalc_eq_spec] at key keyA
  exact ⟨key 0 (by omega), key 1 (by omega), key 2 (by omega), keyA⟩

/-- A concrete one-face mesh (right triangle with legs 3 and 4 in the
XY plane) used to instantiate the hypotheses of the face-quantity
claim. -/
noncomputable def tC2 : TetFile :=
  { vertices := [0, 0, 0, 3, 0, 0, 0, 4, 0]
    tetsIndices := []
    normals := List.replicate 9 0
    texCoords := [0, 0]
    faceNormals := [0, 0, 0]
    faceAreas := [0]
    faces := [[[0, 0], [1, 0], [2, 0]]]
    connectedFaces := [(0, [0]), (1, [0]), (2, [0])]
    verticesPositions := List.replicate 9 0
    verticesTexCoords := List.replicate 6 0
    verticesNormals := List.replicate 9 0
    geometry := none
    triangleCount := 1 }

theorem claim2_witness :
    0 < tC2.faces.length ∧
    tC2.faceNormals.length = tC2.faces.length * 3 ∧
    tC2.faceAreas.length = tC2.faces.length ∧
    tC2.recalcNormals.faceAreas.get? 0 =
      some (specHeronArea
        (specDist (meshPoint tC2.vertices (cornerVertex tC2 0 0))
          (meshPoint tC2.vertices (cornerVertex tC2 0 1)))
        (specDist (meshPoint tC2.vertices (cornerVertex tC2 0 0))
          (meshPoint tC2.vertices (cornerVertex tC2 0 2)))
        (specDist (meshPoint tC2.vertices (cornerVertex tC2 0 1))
          (meshPoint tC2.vertices (cornerVertex tC2 0 2)))) :=
  ⟨by decide, by decide, by decide,
    (claim2_face_normal_heron tC2 0 (by decide) (by decide) (by decide)).2.2.2⟩

/-- C7: `recalcNormals` is idempotent — with unchanged vertex
positions a second invocation reproduces the whole mesh state,
in particular the face-normal, face-area, vertex-normal and
per-corner normal buffers, exactly. -/
theorem claim7_recalcNormals_idempotent (t : TetFile) :
    t.recalcNormals.recalcNormals = t.recalcNormals := by
  simp only [TetFile.recalcNormals, applyWrites_applyWrites]
  cases t.geometry <;> rfl

/-- C9: the buffer writes of `recalcNormals` and `copyDataToBuffer` do
not depend on the render-geometry sink; with the sink absent they all
still happen (identically to any run with the sink present) and only
the change notification is skipped. -/
theorem claim9_absent_geometry (t : TetFile) (g : Geometry) :
    ({ t with geometry := none } : TetFile).recalcNormals.faceNormals =
      ({ t with geometry := some g } : TetFile).recalcNormals.faceNormals ∧
    ({ t with geometry := none } : TetFile).recalcNormals.faceAreas =
      ({ t with geometry := some g } : TetFile).recalcNormals.faceAreas ∧
    ({ t with geometry := none } : TetFile).recalcNormals.normals =
      ({ t with geometry := some g } : TetFile).recalcNormals.normals ∧
    ({ t with geometry := none } : TetFile).recalcNormals.verticesNormals =
      ({ t with geometry := some g } : TetFile).recalcNormals.verticesNormals ∧
    ({ t with geometry := none } : TetFile).recalcNormals.geometry = none ∧
    ({ t with geometry := none } : TetFile).copyDataToBuffer.verticesPositions =
      ({ t with geometry := some g } : TetFile).copyDataToBuffer.verticesPositions ∧
    ({ t with geometry := none } : TetFile).copyDataToBuffer.geometry = none :=
  ⟨rfl, rfl, rfl, rfl, rfl, rfl, rfl⟩

/-- C3: after `loadTet` each per-corner buffer holds `3 × faceCount`
entries (at 3, 2 and 3 floats per entry respectively), and neither
`recalcNormals` nor `copyDataToBuffer` ever reallocates or resizes
them — the untouched buffers are returned unchanged and the rewritten
ones keep their length. -/
theorem claim3_corner_buffer_sizes (p : ParsedData) (t : TetFile) :
    (loadTet p).verticesPositions.length = p.faces.length * 3 * 3 ∧
    (loadTet p).verticesTexCoords.length = p.faces.length * 3 * 2 ∧
    (loadTet p).verticesNormals.length = p.faces.length * 3 * 3 ∧
    t.recalcNormals.verticesPositions = t.verticesPositions ∧
    t.recalcNormals.verticesTexCoords = t.verticesTexCoords ∧
    t.recalcNormals.verticesNormals.length = t.verticesNormals.length ∧
    t.copyDataToBuffer.verticesPositions.length = t.verticesPositions.length ∧
    t.copyDataToBuffer.verticesTexCoords = t.verticesTexCoords ∧
    t.copyDataToBuffer.verticesNormals = t.verticesNormals := by
  refine ⟨?_, ?_, ?_, rfl, rfl, ?_, ?_, rfl, rfl⟩
  · show (applyWrites _ (List.replicate (p.faces.length * 3 * 3) (0 : ℝ))).length = _
    rw [applyWrites_length, List.length_replicate]
  · show (applyWrites _ (List.replicate (p.faces.length * 3 * 2) (0 : ℝ))).length = _
    rw [applyWrites_length, List.length_replicate]
  · show (applyWrites _ (List.replicate (p.faces.length * 3 * 3) (0 : ℝ))).length = _
    rw [applyWrites_length, List.length_replicate]
  · show (applyWrites _ t.verticesNormals).length = _
    rw [applyWrites_length]
  · show (applyWrites _ t.verticesPositions).length = _
    rw [applyWrites_length]

/-- A parsed file with exactly one vertex (and nothing else). -/
noncomputable def pC4 : ParsedData :=
  { vertices := [0, 0, 0], texCoords := [], faces := [], tetsIndices := [] }

/-- C4 (code evaluation): `loadTet` allocates the per-vertex normal
buffer with `vertices.length * 3 = 9 × vertexCount` floats, so for a
one-vertex file it holds 9 floats, not the `3 × vertexCount = 3` the
spec states. -/
theorem claim4_normals_allocation :
    (∀ p : ParsedData, (loadTet p).normals.length = p.vertices.length * 3) ∧
    (loadTet pC4).normals.length = 9 ∧ (loadTet pC4).normals.length ≠ 3 * 1 := by
  have h : ∀ p : ParsedData, (loadTet p).normals.length = p.vertices.length * 3 := by
    intro p
    show (applyWrites _ (List.replicate (p.vertices.length * 3) (0 : ℝ))).length = _
    rw [applyWrites_length, List.length_replicate]
  refine ⟨h, ?_, ?_⟩
  · rw [h pC4]; rfl
  · rw [h pC4]; norm_num [pC4]

/-! ## Characterizing the vertex-normal loop -/

/-- Spec-side sum of the stored unit normals of the given faces, in
adjacency-list order. -/
noncomputable def specAdjNormalSum (fN : List ℝ) : List ℕ → Vec3
  | [] => ⟨0, 0, 0⟩
  | fi :: rest => Vec3.add (storedFaceNormal fN fi) (specAdjNormalSum fN rest)

/-- Spec-side sum of the stored areas of the given faces. -/
noncomputable def specAdjAreaSum (fA : List ℝ) : List ℕ → ℝ
  | [] => 0
  | fi :: rest => fA.getD fi 0 + specAdjAreaSum fA rest

theorem connFold_general (fN fA : List ℝ) (conns : List ℕ) :
    ∀ a b c d : ℝ,
      List.foldl
        (fun acc fi =>
          (acc.1 + fN.getD (fi * 3 + 0) 0,
           acc.2.1 + fN.getD (fi * 3 + 1) 0,
           acc.2.2.1 + fN.getD (fi * 3 + 2) 0,
           acc.2.2.2 + fA.getD fi 0))
        (a, b, c, d) conns =
      (a + (specAdjNormalSum fN conns).x, b + (specAdjNormalSum fN conns).y,
       c + (specAdjNormalSum fN conns).z, d + specAdjAreaSum fA conns) := by
  induction conns with
  | nil =>
    intro a b c d
    simp [specAdjNormalSum, specAdjAreaSum]
  | cons fi rest ih =>
    intro a b c d
    simp only [List.foldl_cons, ih, specAdjNormalSum, specAdjAreaSum,
      Vec3.add, storedFaceNormal]
    refine Prod.ext ?_ (Prod.ext ?_ (Prod.ext ?_ ?_)) <;> dsimp only <;> ring

theorem connAccum_eq (fN fA : List ℝ) (conns : List ℕ) :
    connAccum fN fA conns =
      ((specAdjNormalSum fN conns).x, (specAdjNormalSum fN conns).y,
       (specAdjNormalSum fN conns).z, specAdjAreaSum fA conns) := by
  have h := connFold_general fN fA conns 0 0 0 0
  simpa [connAccum] using h

/-- Component selector for stored vertex-normal triples. -/
def compV : ℕ → ℝ × ℝ × ℝ → ℝ
  | 0, p => p.1
  | 1, p => p.2.1
  | _, p => p.2.2

/-- The value stored for one adjacency entry equals the renormalized
quotient of the plain normal sum by the area sum. -/
theorem vnCalc_eq_spec (fN fA : List ℝ) (conns : List ℕ) :
    vnCalc fN fA conns =
      ((Vec3.normalize (Vec3.smul (1 / specAdjAreaSum fA conns)
          (specAdjNormalSum fN conns))).x,
       (Vec3.normalize (Vec3.smul (1 / specAdjAreaSum fA conns)
          (specAdjNormalSum fN conns))).y,
       (Vec3.normalize (Vec3.smul (1 / specAdjAreaSum fA conns)
          (specAdjNormalSum fN conns))).z) := by
  simp only [vnCalc, connAccum_eq, Vec3.normalize, Vec3.smul, Vec3.norm, hypot3, pow_two]
  refine Prod.ext ?_ (Prod.ext ?_ ?_)
  all_goals dsimp only
  all_goals congr 1
  all_goals ring_nf

theorem vertexNormalWrites_slots (fN fA : List ℝ) (es : List (ℕ × List ℕ)) :
    ∀ iv ∈ vertexNormalWrites fN fA es, ∃ e ∈ es, ∃ j, j < 3 ∧ iv.1 = e.1 * 3 + j := by
  induction es with
  | nil => intro iv h; exact absurd h (List.not_mem_nil iv)
  | cons e rest ih =>
    obtain ⟨u, cs⟩ := e
    intro iv h
    simp only [vertexNormalWrites, List.mem_cons] at h
    rcases h with h | h | h | h
    · exact ⟨(u, cs), List.mem_cons_self _ _, 0, by omega, by rw [h]⟩
    · exact ⟨(u, cs), List.mem_cons_self _ _, 1, by omega, by rw [h]⟩
    · exact ⟨(u, cs), List.mem_cons_self _ _, 2, by omega, by rw [h]⟩
    · obtain ⟨e, he, j, hj, hiv⟩ := ih iv h
      exact ⟨e, List.mem_cons_of_mem _ he, j, hj, hiv⟩

theorem lastW_vertexNormalWrites (fN fA : List ℝ) (es : List (ℕ × List ℕ))
    (v : ℕ) (conns : List ℕ) (j : ℕ) (hj : j < 3)
    (hmem : (v, conns) ∈ es) (hnd : (es.map Prod.fst).Nodup) :
    lastW (vertexNormalWrites fN fA es) (v * 3 + j) =
      some (compV j (vnCalc fN fA conns)) := by
  induction es with
  | nil => exact absurd hmem (List.not_mem_nil _)
  | cons e rest ih =>
    obtain ⟨u, cs⟩ := e
    rw [List.map_cons, List.nodup_cons] at hnd
    rcases List.mem_cons.1 hmem with heq | htl
    · injection heq with hv hc
      subst hv
      subst hc
      have htail : lastW (vertexNormalWrites fN fA rest) (v * 3 + j) = none := by
        refine lastW_eq_none_of_slots _ _ (fun iv hm => ?_)
        obtain ⟨e, he, j2, hj2, hiv⟩ := vertexNormalWrites_slots fN fA rest iv hm
        have hne : e.1 ≠ v := by
          intro hev
          have hm2 : e.1 ∈ rest.map Prod.fst := List.mem_map_of_mem Prod.fst he
          rw [hev] at hm2
          exact hnd.1 hm2
        omega
      simp only [vertexNormalWrites]
      rw [lastW_triple _ _ _ _ _ htail]
      interval_cases j
      · rw [if_neg (by omega), if_neg (by omega), if_pos (by omega)]; rfl
      · rw [if_neg (by omega), if_pos (by omega)]; rfl
      · rw [if_pos (by omega)]; rfl
    · have htail := ih htl hnd.2
      simp only [vertexNormalWrites]
      exact lastW_cons_of_some _ _ _ _
        (lastW_cons_of_some _ _ _ _ (lastW_cons_of_some _ _ _ _ htail))

/-- C1 (amended): for a vertex with adjacency entry `(v, conns)`,
`recalcNormals` stores as vertex normal the renormalization of the
*unweighted* sum of the adjacent unit face normals divided by the sum
of the adjacent face areas — `normalize((ΣNᵢ)/ΣAᵢ)`, whose direction
is that of `ΣNᵢ`, not the area-weighted `normalize(ΣAᵢ·Nᵢ)`. -/
theorem claim1_unweighted_vertex_normal (t : TetFile) (v : ℕ) (conns : List ℕ)
    (hmem : (v, conns) ∈ t.connectedFaces)
    (hnd : (t.connectedFaces.map Prod.fst).Nodup)
    (hrange : v * 3 + 2 < t.normals.length) :
    t.recalcNormals.normals.get? (v * 3 + 0) =
      some (Vec3.normalize (Vec3.smul
        (1 / specAdjAreaSum t.recalcNormals.faceAreas conns)
        (specAdjNormalSum t.recalcNormals.faceNormals conns))).x ∧
    t.recalcNormals.normals.get? (v * 3 + 1) =
      some (Vec3.normalize (Vec3.smul
        (1 / specAdjAreaSum t.recalcNormals.faceAreas conns)
        (specAdjNormalSum t.recalcNormals.faceNormals conns))).y ∧
    t.recalcNormals.normals.get? (v * 3 + 2) =
      some (Vec3.normalize (Vec3.smul
        (1 / specAdjAreaSum t.recalcNormals.faceAreas conns)
        (specAdjNormalSum t.recalcNormals.faceNormals conns))).z := by
  have hnm : t.recalcNormals.normals =
      applyWrites
        (vertexNormalWrites t.recalcNormals.faceNormals t.recalcNormals.faceAreas
          t.connectedFaces)
        t.normals := rfl
  have key : ∀ j, j < 3 → t.recalcNormals.normals.get? (v * 3 + j) =
      some (compV j (vnCalc t.recalcNormals.faceNormals t.recalcNormals.faceAreas conns)) := by
    intro j hj
    rw [hnm]
    refine applyWrites_get?_of_lastW_some _ _ _ _ ?_ (by omega)
    exact lastW_vertexNormalWrites _ _ t.connectedFaces v conns j hj hmem hnd
  rw [vnCalc_eq_spec] at key
  exact ⟨key 0 (by omega), key 1 (by omega), key 2 (by omega)⟩

theorem claim1_witness :
    (0, [0]) ∈ tC2.connectedFaces ∧
    (tC2.connectedFaces.map Prod.fst).Nodup ∧
    0 * 3 + 2 < tC2.normals.length ∧
    tC2.recalcNormals.normals.get? (0 * 3 + 0) =
      some (Vec3.normalize (Vec3.smul
        (1 / specAdjAreaSum tC2.recalcNormals.faceAreas [0])
        (specAdjNormalSum tC2.recalcNormals.faceNormals [0]))).x :=
  ⟨by decide, by decide, by decide,
    (claim1_unweighted_vertex_normal tC2 0 [0] (by decide) (by decide) (by decide)).1⟩

theorem sqrt_eval {a b : ℝ} (hb : 0 ≤ b) (h : a = b ^ 2) : Real.sqrt a = b := by
  rw [h, Real.sqrt_sq hb]

/-- A two-triangle fan sharing vertex 0: a 3-4-5 right triangle in the
XY plane (area 6, normal `(0,0,1)`) and a 6-8-10 right triangle in the
XZ plane (area 24, normal `(0,1,0)`). -/
noncomputable def pC1 : ParsedData :=
  { vertices := [0, 0, 0, 3, 0, 0, 0, 4, 0, 0, 0, 6, 8, 0, 0]
    texCoords := [0, 0]
    faces := [[[0, 0], [1, 0], [2, 0]], [[0, 0], [3, 0], [4, 0]]]
    tetsIndices := [] }

/-- The loaded mesh of the two-triangle fan. -/
noncomputable def tC1 : TetFile := loadTet pC1

theorem tC1_faceCalc_zero :
    faceCalc pC1.vertices (pC1.faces.getD 0 []) =
      { nx := 0, ny := 0, nz := 1, area := 6 } := by
  have h9 : Real.sqrt (9 : ℝ) = 3 := sqrt_eval (by norm_num) (by norm_num)
  have h16 : Real.sqrt (16 : ℝ) = 4 := sqrt_eval (by norm_num) (by norm_num)
  have h25 : Real.sqrt (25 : ℝ) = 5 := sqrt_eval (by norm_num) (by norm_num)
  have h36 : Real.sqrt (36 : ℝ) = 6 := sqrt_eval (by norm_num) (by norm_num)
  have h144 : Real.sqrt (144 : ℝ) = 12 := sqrt_eval (by norm_num) (by norm_num)
  simp only [faceCalc, pC1, hypot3]
  norm_num [h9, h16, h25, h36, h144]

theorem tC1_faceCalc_one :
    faceCalc pC1.vertices (pC1.faces.getD 1 []) =
      { nx := 0, ny := 1, nz := 0, area := 24 } := by
  have h36 : Real.sqrt (36 : ℝ) = 6 := sqrt_eval (by norm_num) (by norm_num)
  have h64 : Real.sqrt (64 : ℝ) = 8 := sqrt_eval (by norm_num) (by norm_num)
  have h100 : Real.sqrt (100 : ℝ) = 10 := sqrt_eval (by norm_num) (by norm_num)
  have h576 : Real.sqrt (576 : ℝ) = 24 := sqrt_eval (by norm_num) (by norm_num)
  have h2304 : Real.sqrt (2304 : ℝ) = 48 := sqrt_eval (by norm_num) (by norm_num)
  simp only [faceCalc, pC1, hypot3]
  norm_num [h36, h64, h100, h576, h2304]

theorem tC1_faceNormals_get (i j : ℕ) (hi : i < 2) (hj : j < 3) :
    tC1.faceNormals.get? (i * 3 + j) =
      some (compN j (faceCalc pC1.vertices (pC1.faces.getD i []))) := by
  have hfn : tC1.faceNormals =
      applyWrites (faceNormalWrites pC1.vertices 0 pC1.faces)
        (List.replicate 6 0) := rfl
  rw [hfn]
  refine applyWrites_get?_of_lastW_some _ _ _ _ ?_
    (by rw [List.length_replicate]; omega)
  have hlen : i < pC1.faces.length := by
    have : pC1.faces.length = 2 := by decide
    omega
  have h := lastW_faceNormalWrites pC1.vertices pC1.faces 0 i j hlen hj
  rw [Nat.zero_add] at h
  exact h

theorem tC1_faceAreas_get (i : ℕ) (hi : i < 2) :
    tC1.faceAreas.get? i =
      some (faceCalc pC1.vertices (pC1.faces.getD i [])).area := by
  have hfa : tC1.faceAreas =
      applyWrites (faceAreaWrites pC1.vertices 0 pC1.faces)
        (List.replicate 2 0) := rfl
  rw [hfa]
  refine applyWrites_get?_of_lastW_some _ _ _ _ ?_
    (by rw [List.length_replicate]; omega)
  have hlen : i < pC1.faces.length := by
    have : pC1.faces.length = 2 := by decide
    omega
  have h := lastW_faceAreaWrites pC1.vertices pC1.faces 0 i hlen
  rw [Nat.zero_add] at h
  exact h

theorem tC1_storedNormal_zero : storedFaceNormal tC1.faceNormals 0 = ⟨0, 0, 1⟩ := by
  have h0 := tC1_faceNormals_get 0 0 (by omega) (by omega)
  have h1 := tC1_faceNormals_get 0 1 (by omega) (by omega)
  have h2 := tC1_faceNormals_get 0 2 (by omega) (by omega)
  rw [tC1_faceCalc_zero] at h0 h1 h2
  simp only [storedFaceNormal, List.getD_eq_getD_get?]
  norm_num at h0 h1 h2 ⊢
  rw [h0, h1, h2]
  exact ⟨rfl, rfl, rfl⟩

theorem tC1_storedNormal_one : storedFaceNormal tC1.faceNormals 1 = ⟨0, 1, 0⟩ := by
  have h0 := tC1_faceNormals_get 1 0 (by omega) (by omega)
  have h1 := tC1_faceNormals_get 1 1 (by omega) (by omega)
  have h2 := tC1_faceNormals_get 1 2 (by omega) (by omega)
  rw [tC1_faceCalc_one] at h0 h1 h2
  simp only [storedFaceNormal, List.getD_eq_getD_get?]
  norm_num at h0 h1 h2 ⊢
  rw [h0, h1, h2]
  exact ⟨rfl, rfl, rfl⟩

theorem tC1_area_zero : tC1.faceAreas.getD 0 0 = 6 := by
  have h := tC1_faceAreas_get 0 (by omega)
  rw [tC1_faceCalc_zero] at h
  simp only [List.getD_eq_getD_get?]
  rw [h]
  rfl

theorem tC1_area_one : tC1.faceAreas.getD 1 0 = 24 := by
  have h := tC1_faceAreas_get 1 (by omega)
  rw [tC1_faceCalc_one] at h
  simp only [List.getD_eq_getD_get?]
  rw [h]
  rfl

theorem tC1_normals_get (j : ℕ) (hj : j < 3) :
    tC1.normals.get? (0 * 3 + j) =
      some (compV j (vnCalc tC1.faceNormals tC1.faceAreas [0, 1])) := by
  have hnm : tC1.normals =
      applyWrites
        (vertexNormalWrites tC1.faceNormals tC1.faceAreas tC1.connectedFaces)
        (List.replicate 45 0) := rfl
  rw [hnm]
  refine applyWrites_get?_of_lastW_some _ _ _ _ ?_
    (by rw [List.length_replicate]; omega)
  exact lastW_vertexNormalWrites _ _ tC1.connectedFaces 0 [0, 1] j hj
    (by decide) (by decide)

theorem tC1_connAccum :
    connAccum tC1.faceNormals tC1.faceAreas [0, 1] = (0, 1, 1, 30) := by
  have g0 : tC1.faceNormals.getD (0 * 3 + 0) 0 = 0 := by
    have h := congrArg Vec3.x tC1_storedNormal_zero
    simpa [storedFaceNormal] using h
  have g1 : tC1.faceNormals.getD (0 * 3 + 1) 0 = 0 := by
    have h := congrArg Vec3.y tC1_storedNormal_zero
    simpa [storedFaceNormal] using h
  have g2 : tC1.faceNormals.getD (0 * 3 + 2) 0 = 1 := by
    have h := congrArg Vec3.z tC1_storedNormal_zero
    simpa [storedFaceNormal] using h
  have g3 : tC1.faceNormals.getD (1 * 3 + 0) 0 = 0 := by
    have h := congrArg Vec3.x tC1_storedNormal_one
    simpa [storedFaceNormal] using h
  have g4 : tC1.faceNormals.getD (1 * 3 + 1) 0 = 1 := by
    have h := congrArg Vec3.y tC1_storedNormal_one
    simpa [storedFaceNormal] using h
  have g5 : tC1.faceNormals.getD (1 * 3 + 2) 0 = 0 := by
    have h := congrArg Vec3.z tC1_storedNormal_one
    simpa [storedFaceNormal] using h
  have a0 := tC1_area_zero
  have a1 := tC1_area_one
  simp only [connAccum, List.foldl_cons, List.foldl_nil]
  norm_num at g0 g1 g2 g3 g4 g5 a0 a1 ⊢
  rw [g0, g1, g2, g3, g4, g5, a0, a1]
  norm_num

theorem specW_concrete :
    specWeightedVertexNormal [((6 : ℝ), ⟨0, 0, 1⟩), ((24 : ℝ), ⟨0, 1, 0⟩)] =
      ⟨0 / Real.sqrt 612, 24 / Real.sqrt 612, 6 / Real.sqrt 612⟩ := by
  simp only [specWeightedVertexNormal, List.foldl_cons, List.foldl_nil,
    Vec3.add, Vec3.smul, Vec3.normalize, Vec3.norm]
  norm_num

/-- C1 fails on the code: for the two-triangle fan `tC1` (areas 6 and
24, unit normals `(0,0,1)` and `(0,1,0)` — computed above and shared
at vertex 0), the vertex normal stored by `recalcNormals` is **not**
`normalize(A1·N1 + A2·N2)` built from the stored areas and normals. -/
theorem claim1_counterexample :
    ¬ (tC1.normals.get? (0 * 3 + 0) =
        some (specWeightedVertexNormal
          [(tC1.faceAreas.getD 0 0, storedFaceNormal tC1.faceNormals 0),
           (tC1.faceAreas.getD 1 0, storedFaceNormal tC1.faceNormals 1)]).x ∧
      tC1.normals.get? (0 * 3 + 1) =
        some (specWeightedVertexNormal
          [(tC1.faceAreas.getD 0 0, storedFaceNormal tC1.faceNormals 0),
           (tC1.faceAreas.getD 1 0, storedFaceNormal tC1.faceNormals 1)]).y ∧
      tC1.normals.get? (0 * 3 + 2) =
        some (specWeightedVertexNormal
          [(tC1.faceAreas.getD 0 0, storedFaceNormal tC1.faceNormals 0),
           (tC1.faceAreas.getD 1 0, storedFaceNormal tC1.faceNormals 1)]).z) := by
  rw [tC1_area_zero, tC1_area_one, tC1_storedNormal_zero, tC1_storedNormal_one,
    specW_concrete]
  rintro ⟨-, h2, h3⟩
  have e2 := tC1_normals_get 1 (by omega)
  have e3 := tC1_normals_get 2 (by omega)
  rw [h2] at e2
  rw [h3] at e3
  have hy : (24 : ℝ) / Real.sqrt 612 =
      compV 1 (vnCalc tC1.faceNormals tC1.faceAreas [0, 1]) := by
    exact Option.some.inj e2
  have hz : (6 : ℝ) / Real.sqrt 612 =
      compV 2 (vnCalc tC1.faceNormals tC1.faceAreas [0, 1]) := by
    exact Option.some.inj e3
  have hyz : compV 1 (vnCalc tC1.faceNormals tC1.faceAreas [0, 1]) =
      compV 2 (vnCalc tC1.faceNormals tC1.faceAreas [0, 1]) := by
    simp only [vnCalc, tC1_connAccum, compV]
  have hL : 0 < Real.sqrt 612 := Real.sqrt_pos.mpr (by norm_num)
  have h246 : (24 : ℝ) / Real.sqrt 612 = 6 / Real.sqrt 612 := by
    rw [hy, hyz, ← hz]
  rw [div_eq_div_iff hL.ne' hL.ne'] at h246
  have := mul_right_cancel₀ hL.ne' h246
  norm_num at this

/-! ## Parser lemmas -/

theorem splitOnChar_ne_nil (c : Char) (l : List Char) : splitOnChar c l ≠ [] := by
  cases l with
  | nil => exact fun h => List.noConfusion h
  | cons x xs =>
    simp only [splitOnChar]
    by_cases hx : x = c
    · rw [if_pos hx]; exact fun h => List.noConfusion h
    · rw [if_neg hx]
      rcases h : splitOnChar c xs with _ | ⟨t, ts⟩
      · exact fun h2 => List.noConfusion h2
      · exact fun h2 => List.noConfusion h2

theorem splitOnChar_headD (c : Char) (l : List Char) :
    (splitOnChar c l).headD [] = l.takeWhile (fun x => x ≠ c) := by
  induction l with
  | nil => rfl
  | cons x xs ih =>
    simp only [splitOnChar, List.takeWhile_cons]
    by_cases hx : x = c
    · rw [if_pos hx]
      simp [hx]
    · rw [if_neg hx]
      rcases h : splitOnChar c xs with _ | ⟨t, ts⟩
      · exact absurd h (splitOnChar_ne_nil c xs)
      · rw [h] at ih
        simp only [List.headD_cons] at ih
        simp [hx, ih]

theorem takeWhile_eq_cons_head {p : Char → Bool} {l : List Char} {a : Char}
    {rest : List Char} (h : l.takeWhile p = a :: rest) : l.head? = some a := by
  cases l with
  | nil => exact absurd h (fun h2 => List.noConfusion h2)
  | cons x xs =>
    rw [List.takeWhile_cons] at h
    by_cases hx : p x
    · rw [if_pos hx] at h
      injection h with h1 h2
      subst h1
      rfl
    · rw [if_neg hx] at h
      exact absurd h (fun h2 => List.noConfusion h2)

/-- A line whose first token is `f` but which has fewer than four
space-separated tokens in total makes the forEach body throw
(`values[1+i]` is `undefined`): the line body yields `none` whatever
the accumulator is. -/
theorem parseLine_deficient_face (acc : ParsedTetFile) (line : List Char)
    (hf : (splitOnChar ' ' (jsTrim line)).headD [] = ['f'])
    (hlen : (splitOnChar ' ' (jsTrim line)).length < 4) :
    parseLine acc line = none := by
  have hhead : (jsTrim line).head? = some 'f' := by
    have h := splitOnChar_headD ' ' (jsTrim line)
    rw [hf] at h
    exact takeWhile_eq_cons_head h.symm
  have hne : (jsTrim line).head? ≠ some '#' := by
    rw [hhead]
    intro h
    injection h with h
    exact absurd h (by decide)
  have hget3 : (splitOnChar ' ' (jsTrim line)).get? 3 = none :=
    List.get?_eq_none.2 (by omega)
  have hpos : 0 < (splitOnChar ' ' (jsTrim line)).length :=
    List.length_pos.2 (splitOnChar_ne_nil ' ' (jsTrim line))
  simp only [parseLine, if_neg hne]
  rw [if_neg (by omega)]
  rw [hf]
  rw [if_neg (by decide), if_neg (by decide), if_pos rfl]
  rw [hget3]
  rcases (splitOnChar ' ' (jsTrim line)).get? 1 with _ | t1 <;>
    rcases (splitOnChar ' ' (jsTrim line)).get? 2 with _ | t2 <;> rfl

theorem parseLines_of_line_none (line : List Char)
    (hl : ∀ a : ParsedTetFile, parseLine a line = none) :
    ∀ (pre : List (List Char)) (acc : ParsedTetFile) (post : List (List Char)),
      parseLines acc (pre ++ line :: post) = none := by
  intro pre
  induction pre with
  | nil =>
    intro acc post
    simp only [List.nil_append, parseLines, hl acc, Option.none_bind]
  | cons q pre ih =>
    intro acc post
    simp only [List.cons_append, parseLines]
    rcases h : parseLine acc q with _ | acc2
    · rfl
    · simp only [Option.some_bind]
      exact ih acc2 post

/-- C10: `parseTetFile` is not total over face lines — any line whose
first token is `f` with fewer than three corner tokens after it makes
the whole parse fail (the model's `none`, the thrown `TypeError` of
`undefined.split` in the source) instead of being skipped like an
unknown directive. -/
theorem claim10_deficient_face_line_fails (acc : ParsedTetFile)
    (pre post : List (List Char)) (line : List Char)
    (hf : (splitOnChar ' ' (jsTrim line)).headD [] = ['f'])
    (hlen : (splitOnChar ' ' (jsTrim line)).length < 4) :
    parseLines acc (pre ++ line :: post) = none :=
  parseLines_of_line_none line
    (fun a => parseLine_deficient_face a line hf hlen) pre acc post

theorem claim10_witness :
    (splitOnChar ' ' (jsTrim ("f 1/1 2/2").toList)).headD [] = ['f'] ∧
    (splitOnChar ' ' (jsTrim ("f 1/1 2/2").toList)).length < 4 ∧
    parseLines {} ([] ++ ("f 1/1 2/2").toList :: []) = none :=
  ⟨by decide, by decide,
    claim10_deficient_face_line_fails {} [] [] ("f 1/1 2/2").toList
      (by decide) (by decide)⟩

/-- Spec-side: a directive line whose tokens are separated by single
blank characters. -/
def joinTokens : List (List Char) → List Char
  | [] => []
  | [t] => t
  | t :: ts => t ++ ' ' :: joinTokens ts

theorem splitOnChar_not_mem {c : Char} {l : List Char} (h : c ∉ l) :
    splitOnChar c l = [l] := by
  induction l with
  | nil => rfl
  | cons x xs ih =>
    have hx : x ≠ c := fun he => h (he ▸ List.mem_cons_self x xs)
    have hxs : c ∉ xs := fun hm => h (List.mem_cons_of_mem x hm)
    simp only [splitOnChar, if_neg hx, ih hxs]

theorem splitOnChar_append {c : Char} {xs : List Char} (ys : List Char)
    (h : c ∉ xs) : splitOnChar c (xs ++ c :: ys) = xs :: splitOnChar c ys := by
  induction xs with
  | nil => simp [splitOnChar]
  | cons x xs ih =>
    have hx : x ≠ c := fun he => h (he ▸ List.mem_cons_self x xs)
    have hxs : c ∉ xs := fun hm => h (List.mem_cons_of_mem x hm)
    rw [List.cons_append]
    simp only [splitOnChar, if_neg hx, ih hxs]

theorem splitOnChar_joinTokens (ts : List (List Char)) (hne : ts ≠ [])
    (hsp : ∀ tok ∈ ts, ' ' ∉ tok) :
    splitOnChar ' ' (joinTokens ts) = ts := by
  induction ts with
  | nil => exact absurd rfl hne
  | cons t rest ih =>
    rcases rest with _ | ⟨t2, rest2⟩
    · exact splitOnChar_not_mem (hsp t (List.mem_cons_self _ _))
    · have hj : joinTokens (t :: t2 :: rest2) = t ++ ' ' :: joinTokens (t2 :: rest2) := rfl
      rw [hj, splitOnChar_append _ (hsp t (List.mem_cons_self _ _))]
      rw [ih (fun h => List.noConfusion h)
        (fun tok hm => hsp tok (List.mem_cons_of_mem t hm))]

theorem dropWhile_eq_self_of_head {p : Char → Bool} {l : List Char}
    (h : ∀ c, l.head? = some c → p c = false) : l.dropWhile p = l := by
  cases l with
  | nil => rfl
  | cons x xs =>
    rw [List.dropWhile_cons, if_neg]
    rw [h x rfl]
    exact fun h2 => Bool.noConfusion h2

theorem jsTrim_eq_self (l : List Char)
    (h1 : ∀ c, l.head? = some c → isJsWS c = false)
    (h2 : ∀ c, l.getLast? = some c → isJsWS c = false) : jsTrim l = l := by
  rw [jsTrim, dropWhile_eq_self_of_head h1, dropWhile_eq_self_of_head
    (fun c hc => h2 c (by rwa [List.head?_reverse] at hc)), List.reverse_reverse]

theorem joinTokens_head? (t : List Char) (ts : List (List Char)) (ht : t ≠ []) :
    (joinTokens (t :: ts)).head? = t.head? := by
  rcases ts with _ | ⟨t2, rest⟩
  · rfl
  · have hj : joinTokens (t :: t2 :: rest) = t ++ ' ' :: joinTokens (t2 :: rest) := rfl
    rw [hj, List.head?_append_of_ne_nil _ ht]

theorem joinTokens_getLast? (ts : List (List Char)) (hne : ts ≠ [])
    (h : ∀ tok ∈ ts, tok ≠ []) :
    ∃ t ∈ ts, (joinTokens ts).getLast? = t.getLast? := by
  induction ts with
  | nil => exact absurd rfl hne
  | cons t rest ih =>
    rcases rest with _ | ⟨t2, rest2⟩
    · exact ⟨t, List.mem_cons_self _ _, rfl⟩
    · obtain ⟨u, hu, he⟩ := ih (fun h2 => List.noConfusion h2)
        (fun tok hm => h tok (List.mem_cons_of_mem t hm))
      refine ⟨u, List.mem_cons_of_mem t hu, ?_⟩
      have hj : joinTokens (t :: t2 :: rest2) = t ++ ' ' :: joinTokens (t2 :: rest2) := rfl
      rw [hj, List.getLast?_append_cons]
      rcases hJ : joinTokens (t2 :: rest2) with _ | ⟨j, js⟩
      · exfalso
        have hne2 : t2 ≠ [] := h t2 (by simp)
        have hh := joinTokens_head? t2 rest2 hne2
        rw [hJ] at hh
        exact hne2 (List.head?_eq_none_iff.1 hh.symm)
      · rw [List.getLast?_cons_cons, ← hJ]
        exact he

theorem mem_of_head?_eq {l : List Char} {c : Char} (h : l.head? = some c) : c ∈ l := by
  cases l with
  | nil => exact Option.noConfusion h
  | cons x xs =>
    injection h with h
    exact h ▸ List.mem_cons_self _ _

theorem mem_of_getLast?_eq {l : List Char} {c : Char} (h : l.getLast? = some c) : c ∈ l := by
  have h2 : c ∈ l.getLast? := Option.mem_def.2 h
  obtain ⟨hh, he⟩ := List.mem_getLast?_eq_getLast h2
  exact he ▸ List.getLast_mem hh

/-- C8 fails on the code: the same `t` directive tokens separated by a
tab, or by a double blank, parse differently from the single-blank
form (`line.split(' ')` splits on single blanks only). -/
theorem claim8_counterexample :
    parseTetFile ("t 1 2 3 4").toList ≠ parseTetFile ("t\t1\t2\t3\t4").toList ∧
    parseTetFile ("t 1 2 3 4").toList ≠ parseTetFile ("t  1 2 3 4").toList := by
  refine ⟨?_, ?_⟩ <;> decide

/-- Joining nonempty whitespace-free tokens with single blanks gives a
line that trimming leaves unchanged. -/
theorem trim_joinTokens (ts : List (List Char)) (hne : ts ≠ [])
    (htok : ∀ tok ∈ ts, tok ≠ [] ∧ ∀ c ∈ tok, isJsWS c = false) :
    jsTrim (joinTokens ts) = joinTokens ts := by
  refine jsTrim_eq_self _ ?_ ?_
  · intro c hc
    rcases ts with _ | ⟨t, rest⟩
    · exact absurd rfl hne
    · rw [joinTokens_head? t rest (htok t (List.mem_cons_self _ _)).1] at hc
      exact (htok t (List.mem_cons_self _ _)).2 c (mem_of_head?_eq hc)
  · intro c hc
    obtain ⟨u, hu, he⟩ := joinTokens_getLast? ts hne (fun tok hm => (htok tok hm).1)
    rw [he] at hc
    exact (htok u hu).2 c (mem_of_getLast?_eq hc)

/-- Tokenizing a single-blank-joined line recovers the token list. -/
theorem tokenize_joinTokens (ts : List (List Char)) (hne : ts ≠ [])
    (htok : ∀ tok ∈ ts, tok ≠ [] ∧ ∀ c ∈ tok, isJsWS c = false) :
    splitOnChar ' ' (jsTrim (joinTokens ts)) = ts := by
  have hsp : ∀ tok ∈ ts, ' ' ∉ tok := by
    intro tok hm hc
    have h := (htok tok hm).2 ' ' hc
    exact absurd h (by decide)
  rw [trim_joinTokens ts hne htok]
  exact splitOnChar_joinTokens ts hne hsp

/-- C8 (amended): directive lines are tokenized by splitting on single
blank characters: a line whose nonempty, whitespace-free tokens are
joined by single blanks tokenizes back to exactly that token list
(tabs are not separators and runs of blanks yield empty tokens, so
other whitespace changes the parse). -/
theorem claim8_single_space_tokenization (ts : List (List Char)) (hne : ts ≠ [])
    (htok : ∀ tok ∈ ts, tok ≠ [] ∧ ∀ c ∈ tok, isJsWS c = false) :
    splitOnChar ' ' (jsTrim (joinTokens ts)) = ts :=
  tokenize_joinTokens ts hne htok

theorem claim8_witness :
    ([['t'], ['1'], ['2']] : List (List Char)) ≠ [] ∧
    (∀ tok ∈ ([['t'], ['1'], ['2']] : List (List Char)),
      tok ≠ [] ∧ ∀ c ∈ tok, isJsWS c = false) ∧
    splitOnChar ' ' (jsTrim (joinTokens [['t'], ['1'], ['2']])) = [['t'], ['1'], ['2']] :=
  ⟨by decide, by decide,
    claim8_single_space_tokenization [['t'], ['1'], ['2']] (by decide) (by decide)⟩

/-- C5: 1-based indices are converted to 0-based on parse. A face
corner token `m/n` (numeric halves around the slash) parses to the
corner `[m−1, n−1]`, and a `t s1 s2 s3 s4` directive line appends the
four parsed indices each decremented by one. -/
theorem claim5_one_based_conversion
    (ms ns : List Char) (m n : ℤ)
    (hm : jsParseInt ms = some m) (hn : jsParseInt ns = some n)
    (hms : '/' ∉ ms) (hns : '/' ∉ ns)
    (s1 s2 s3 s4 : List Char) (k1 k2 k3 k4 : ℤ) (acc : ParsedTetFile)
    (h1 : jsParseInt s1 = some k1) (h2 : jsParseInt s2 = some k2)
    (h3 : jsParseInt s3 = some k3) (h4 : jsParseInt s4 = some k4)
    (htok : ∀ tok ∈ [s1, s2, s3, s4], tok ≠ [] ∧ ∀ c ∈ tok, isJsWS c = false) :
    parseCorner (ms ++ '/' :: ns) = [some (m - 1), some (n - 1)] ∧
    parseLine acc (joinTokens [['t'], s1, s2, s3, s4]) =
      some { acc with tetsIndices := acc.tetsIndices ++
        [some (k1 - 1), some (k2 - 1), some (k3 - 1), some (k4 - 1)] } := by
  constructor
  · rw [parseCorner, splitOnChar_append _ hms, splitOnChar_not_mem hns,
      List.map_cons, List.map_cons, List.map_nil, hm, hn]
    rfl
  · have htok5 : ∀ tok ∈ [['t'], s1, s2, s3, s4],
        tok ≠ [] ∧ ∀ c ∈ tok, isJsWS c = false := by
      intro tok hmem
      rcases List.mem_cons.1 hmem with he | hr
      · subst he
        exact ⟨fun h => List.noConfusion h, by decide⟩
      · exact htok tok hr
    have hne5 : ([['t'], s1, s2, s3, s4] : List (List Char)) ≠ [] :=
      fun h => List.noConfusion h
    have htr := trim_joinTokens _ hne5 htok5
    have hsp := tokenize_joinTokens _ hne5 htok5
    have hhead : (jsTrim (joinTokens [['t'], s1, s2, s3, s4])).head? = some 't' := by
      rw [htr, joinTokens_head? _ _ (fun h => List.noConfusion h)]
      rfl
    simp only [parseLine, hsp, hhead]
    rw [if_neg (by intro h; injection h with h; exact absurd h (by decide))]
    rw [if_neg (by norm_num)]
    rw [if_neg (by simp), if_neg (by simp), if_neg (by simp), if_pos (by simp)]
    simp only [intAt, List.get?, h1, h2, h3, h4, Option.some_bind]
    rfl

theorem claim5_witness :
    jsParseInt ['5'] = some 5 ∧ jsParseInt ['2'] = some 2 ∧
    parseCorner (['5'] ++ '/' :: ['2']) = [some 4, some 1] ∧
    parseLine {} (joinTokens [['t'], ['1'], ['2'], ['3'], ['1']]) =
      some { ({} : ParsedTetFile) with tetsIndices :=
        ([] : List (Option ℤ)) ++ [some 0, some 1, some 2, some 0] } := by
  have h := claim5_one_based_conversion ['5'] ['2'] 5 2 (by decide) (by decide)
    (by decide) (by decide) ['1'] ['2'] ['3'] ['1'] 1 2 3 1 {}
    (by decide) (by decide) (by decide) (by decide) (by decide)
  exact ⟨by decide, by decide, h.1, h.2⟩

/-! ## Adjacency-map lemmas -/

theorem mapGet_mapSet (cf : List (ℕ × List ℕ)) (v : ℕ) (l : List ℕ) (w : ℕ) :
    mapGet (mapSet cf v l) w = if v = w then some l else mapGet cf w := by
  induction cf with
  | nil =>
    simp only [mapSet, mapGet]
  | cons e rest ih =>
    simp only [mapSet]
    by_cases he : e.1 = v
    · rw [if_pos he]
      by_cases hw : v = w
      · simp [mapGet, hw, he]
      · simp only [mapGet, if_neg hw]
        rw [if_neg (by rw [he]; exact hw)]
    · rw [if_neg he]
      by_cases hew : e.1 = w
      · have hvw : ¬ v = w := by rw [← hew]; intro h; exact he h.symm
        simp only [mapGet, if_pos hew, if_neg hvw]
      · simp only [mapGet, if_neg hew, ih]

theorem mapGet_addFaceCorner_isSome (cf : List (ℕ × List ℕ)) (k w v : ℕ) :
    (mapGet (addFaceCorner cf k w) v).isSome = true ↔
      v = w ∨ (mapGet cf v).isSome = true := by
  rw [addFaceCorner, mapGet_mapSet]
  by_cases hw : w = v
  · simp [hw]
  · rw [if_neg hw]
    constructor
    · exact fun h => Or.inr h
    · rintro (h | h)
      · exact absurd h.symm hw
      · exact h

theorem addFaceCorner_values (cf : List (ℕ × List ℕ)) (k w : ℕ)
    (hp : ∀ v l, mapGet cf v = some l → l ≠ [] ∧ l.Nodup) :
    ∀ v l, mapGet (addFaceCorner cf k w) v = some l → l ≠ [] ∧ l.Nodup := by
  intro v l h
  rw [addFaceCorner, mapGet_mapSet] at h
  by_cases hw : w = v
  · rw [if_pos hw] at h
    injection h with h
    subst h
    rcases hg : mapGet cf w with _ | l0
    · simp only [Option.getD_none]
      rw [if_neg (List.not_mem_nil k)]
      exact ⟨fun h2 => List.noConfusion h2, List.nodup_cons.2 ⟨List.not_mem_nil k, List.nodup_nil⟩⟩
    · simp only [Option.getD_some]
      obtain ⟨hne0, hnd0⟩ := hp w l0 hg
      by_cases hk : k ∈ l0
      · rw [if_pos hk]
        exact ⟨hne0, hnd0⟩
      · rw [if_neg hk]
        refine ⟨fun h2 => hne0 (List.append_eq_nil.1 h2).1, ?_⟩
        rw [List.nodup_append]
        exact ⟨hnd0, List.nodup_cons.2 ⟨List.not_mem_nil k, List.nodup_nil⟩,
          fun a ha hb => hk ((List.mem_singleton.1 hb) ▸ ha)⟩
  · rw [if_neg hw] at h
    exact hp v l h

theorem buildCF_isSome (fs : List Face) : ∀ (k : ℕ) (cf : List (ℕ × List ℕ)) (v : ℕ),
    (mapGet (buildCF k fs cf) v).isSome = true ↔
      (∃ f ∈ fs, v = (f.getD 0 []).headD 0 ∨ v = (f.getD 1 []).headD 0 ∨
        v = (f.getD 2 []).headD 0) ∨ (mapGet cf v).isSome = true := by
  induction fs with
  | nil =>
    intro k cf v
    simp [buildCF]
  | cons f fs ih =>
    intro k cf v
    simp only [buildCF]
    rw [ih]
    rw [mapGet_addFaceCorner_isSome, mapGet_addFaceCorner_isSome,
      mapGet_addFaceCorner_isSome]
    simp only [List.mem_cons]
    constructor
    · rintro (⟨f2, hf2, hv⟩ | h2 | h1 | h0 | hcf)
      · exact Or.inl ⟨f2, Or.inr hf2, hv⟩
      · exact Or.inl ⟨f, Or.inl rfl, Or.inr (Or.inr h2)⟩
      · exact Or.inl ⟨f, Or.inl rfl, Or.inr (Or.inl h1)⟩
      · exact Or.inl ⟨f, Or.inl rfl, Or.inl h0⟩
      · exact Or.inr hcf
    · rintro (⟨f2, hf2 | hf2, hv⟩ | hcf)
      · subst hf2
        rcases hv with h0 | h1 | h2
        · exact Or.inr (Or.inr (Or.inr (Or.inl h0)))
        · exact Or.inr (Or.inr (Or.inl h1))
        · exact Or.inr (Or.inl h2)
      · exact Or.inl ⟨f2, hf2, hv⟩
      · exact Or.inr (Or.inr (Or.inr (Or.inr hcf)))

theorem buildCF_values (fs : List Face) : ∀ (k : ℕ) (cf : List (ℕ × List ℕ)),
    (∀ v l, mapGet cf v = some l → l ≠ [] ∧ l.Nodup) →
    ∀ v l, mapGet (buildCF k fs cf) v = some l → l ≠ [] ∧ l.Nodup := by
  induction fs with
  | nil =>
    intro k cf hp
    exact hp
  | cons f fs ih =>
    intro k cf hp
    simp only [buildCF]
    exact ih (k + 1) _
      (addFaceCorner_values _ _ _ (addFaceCorner_values _ _ _ (addFaceCorner_values _ _ _ hp)))

/-- C6: after the adjacency build, a vertex index has an entry in the
adjacency map exactly when it appears in some face's corners, and every
entry's face list is non-empty and duplicate-free (a face referencing
the same vertex through several corners is counted once). -/
theorem claim6_adjacency_map (p : ParsedData)
    (hwf : ∀ f ∈ p.faces, f.length = 3 ∧ ∀ c ∈ f, c ≠ []) :
    (∀ v : ℕ,
      (∃ f ∈ p.faces, ∃ c ∈ f, c.headD 0 = v) ↔
        (mapGet (loadTet p).connectedFaces v).isSome = true) ∧
    (∀ v l, mapGet (loadTet p).connectedFaces v = some l → l ≠ [] ∧ l.Nodup) := by
  have hcf : (loadTet p).connectedFaces = buildCF 0 p.faces [] := rfl
  constructor
  · intro v
    rw [hcf, buildCF_isSome]
    simp only [mapGet, Option.isSome_none, Bool.false_eq_true, or_false]
    constructor
    · rintro ⟨f, hf, c, hc, hv⟩
      refine ⟨f, hf, ?_⟩
      obtain ⟨h3, -⟩ := hwf f hf
      obtain ⟨c0, c1, c2, rfl⟩ := List.length_eq_three.1 h3
      simp only [List.mem_cons, List.not_mem_nil, or_false] at hc
      rcases hc with rfl | rfl | rfl
      · exact Or.inl hv.symm
      · exact Or.inr (Or.inl hv.symm)
      · exact Or.inr (Or.inr hv.symm)
    · rintro ⟨f, hf, hv⟩
      obtain ⟨h3, -⟩ := hwf f hf
      obtain ⟨c0, c1, c2, rfl⟩ := List.length_eq_three.1 h3
      rcases hv with hv | hv | hv
      · exact ⟨_, hf, c0, by simp, hv.symm⟩
      · exact ⟨_, hf, c1, by simp, hv.symm⟩
      · exact ⟨_, hf, c2, by simp, hv.symm⟩
  · intro v l h
    rw [hcf] at h
    exact buildCF_values p.faces 0 []
      (fun v2 l2 h2 => Option.noConfusion h2) v l h

/-- A parsed file with a degenerate face referencing vertex 0 through
two corners, plus a regular face. -/
noncomputable def pC6 : ParsedData :=
  { vertices := []
    texCoords := []
    faces := [[[0, 0], [1, 0], [0, 5]], [[1, 0], [2, 0], [3, 0]]]
    tetsIndices := [] }

theorem claim6_witness :
    (∀ f ∈ pC6.faces, f.length = 3 ∧ ∀ c ∈ f, c ≠ []) ∧
    ((∀ v : ℕ,
      (∃ f ∈ pC6.faces, ∃ c ∈ f, c.headD 0 = v) ↔
        (mapGet (loadTet pC6).connectedFaces v).isSome = true) ∧
    (∀ v l, mapGet (loadTet pC6).connectedFaces v = some l → l ≠ [] ∧ l.Nodup)) :=
  ⟨by decide, claim6_adjacency_map pC6 (by decide)⟩

end TetLoader
